import Mathlib

/-!
Verification of the Health-Analysis pipeline (files `amazon.py` and `st.py`).

The Python source is shallowly embedded:
- JSON values (the results of `json.loads` and the provider responses) are the
  inductive type `JValue`; Python `dict.get`, indexing, iteration, truthiness
  and `str()` are modelled by `pyDictGet`, `pyIndex0`, `pyIter`, `pyTruthy`
  and `pyStr`.  JSON numbers are modelled as integers (no claim depends on
  numeric values).
- Python exceptions are modelled with `Except String`; the exception kind is
  recorded as the message.
- The external collaborators (the Textract client and the Bedrock
  `invoke_model` call, including the fixed prompt text folded into the
  request) are parameters of the embedded functions: a poll/fetch function for
  Textract, and a per-chunk `call` function for Bedrock.  Unbounded `while`
  loops over provider responses take an explicit fuel argument and return
  `none` when the fuel is exhausted.
-/

/-- JSON-like values: the shapes `json.loads` can produce and the provider
response envelopes.  Numbers are modelled as integers. -/
inductive JValue where
  | null : JValue
  | bool : Bool → JValue
  | num : Int → JValue
  | str : String → JValue
  | arr : List JValue → JValue
  | obj : List (String × JValue) → JValue

/-- Lookup of a key in a parsed JSON object (a Python dict). -/
def dictLookup (fields : List (String × JValue)) (key : String) : Option JValue :=
  List.lookup key fields

/-- Python `d.get(key, default)`: raises AttributeError when the receiver is
not a dict. -/
def pyDictGet (v : JValue) (key : String) (dflt : JValue) : Except String JValue :=
  match v with
  | .obj fields => .ok ((dictLookup fields key).getD dflt)
  | _ => .error "AttributeError"

/-- The `.get` of a dict known to be an object, with a default value. -/
def objGetD (fields : List (String × JValue)) (key : String) (dflt : JValue) : JValue :=
  (dictLookup fields key).getD dflt

/-- Python `v[0]`: first element of a list or first character of a string;
IndexError on an empty sequence, TypeError on a non-indexable value. -/
def pyIndex0 : JValue → Except String JValue
  | .arr (x :: _) => .ok x
  | .arr [] => .error "IndexError"
  | .str s =>
      match s.data with
      | c :: _ => .ok (.str (String.mk [c]))
      | [] => .error "IndexError"
  | _ => .error "TypeError"

/-- Python iteration `for x in v`: lists yield their elements, strings their
characters, dicts their keys; other values raise TypeError (`none`). -/
def pyIter : JValue → Option (List JValue)
  | .arr xs => some xs
  | .str s => some (s.data.map (fun c => JValue.str (String.mk [c])))
  | .obj fs => some (fs.map (fun p => JValue.str p.1))
  | _ => none

/-- Python truthiness of a JSON value. -/
def pyTruthy : JValue → Bool
  | .null => false
  | .bool b => b
  | .num n => decide (n ≠ 0)
  | .str s => !(s.isEmpty)
  | .arr xs => !(xs.isEmpty)
  | .obj fs => !(fs.isEmpty)

/-- Quoting used by Python `repr` for strings. -/
def pyQuote (s : String) : String := "\x27" ++ s ++ "\x27"

mutual

/-- Python `repr` of a JSON value. -/
def pyRepr : JValue → String
  | .null => "None"
  | .bool true => "True"
  | .bool false => "False"
  | .num n => toString n
  | .str s => pyQuote s
  | .arr xs => "[" ++ pyReprList xs ++ "]"
  | .obj fs => "\x7b" ++ pyReprFields fs ++ "\x7d"

/-- Comma-separated `repr` of list elements. -/
def pyReprList : List JValue → String
  | [] => ""
  | [x] => pyRepr x
  | x :: xs => pyRepr x ++ ", " ++ pyReprList xs

/-- Comma-separated `repr` of dict entries. -/
def pyReprFields : List (String × JValue) → String
  | [] => ""
  | [(k, v)] => pyQuote k ++ ": " ++ pyRepr v
  | (k, v) :: fs => pyQuote k ++ ": " ++ pyRepr v ++ ", " ++ pyReprFields fs

end

/-- Python `str()` of a JSON value. -/
def pyStr (v : JValue) : String :=
  match v with
  | .str s => s
  | v => pyRepr v

/-- The left-brace character, written by code point to keep it out of
character literals. -/
def lbrace : Char := Char.ofNat 123

/-- The right-brace character. -/
def rbrace : Char := Char.ofNat 125

/-- Index of the first occurrence of a character in a character list. -/
def findIdxFrom (c : Char) : List Char → Option Nat
  | [] => none
  | x :: xs => if x = c then some 0 else (findIdxFrom c xs).map (· + 1)

/-- Python `s.find(c)`: index of the first occurrence, `-1` when absent. -/
def pyFind (s : String) (c : Char) : Int :=
  match findIdxFrom c s.data with
  | some n => (n : Int)
  | none => -1

/-- Python `s.rfind(c)`: index of the last occurrence, `-1` when absent. -/
def pyRfind (s : String) (c : Char) : Int :=
  match findIdxFrom c s.data.reverse with
  | some n => (s.data.length : Int) - 1 - (n : Int)
  | none => -1

/-- Python `s[a:b]` for the non-negative bounds used in the source. -/
def pySlice (s : String) (a b : Int) : String :=
  String.mk ((s.data.drop a.toNat).take (b.toNat - a.toNat))

/-- Character-list worker for `pySplit`; `acc` holds the characters of the
current word in reverse. -/
def pySplitAux : List Char → List Char → List String
  | [], acc => if acc.isEmpty then [] else [String.mk acc.reverse]
  | c :: cs, acc =>
      if c.isWhitespace then
        if acc.isEmpty then pySplitAux cs []
        else String.mk acc.reverse :: pySplitAux cs []
      else pySplitAux cs (c :: acc)

/-- Python `text.split()`: split on whitespace runs, dropping empty pieces. -/
def pySplit (s : String) : List String := pySplitAux s.data []

/-- Python `" ".join(ws)`. -/
def joinWords : List String → String
  | [] => ""
  | [w] => w
  | w :: ws => w ++ " " ++ joinWords ws

/-- Loop body and final flush of `chunk_text` (amazon.py lines 59-69), at the
level of word lists: `cs` is the list of closed chunks, `cur` the running
chunk and `sz` the running size counter. -/
def chunkAux (max_chunk_size : Nat) :
    List (List String) → List String → Nat → List String → List (List String)
  | cs, cur, _, [] => if cur ≠ [] then cs ++ [cur] else cs
  | cs, cur, sz, w :: ws =>
      if sz + w.length + 1 > max_chunk_size ∧ cur ≠ [] then
        chunkAux max_chunk_size (cs ++ [cur]) [w] w.length ws
      else
        chunkAux max_chunk_size cs (cur ++ [w]) (sz + w.length + 1) ws

/-- Embeds `chunk_text` (amazon.py lines 52-71): split into words, greedily
accumulate, join each closed chunk with single spaces. -/
def chunk_text (text : String) (max_chunk_size : Nat := 6000) : List String :=
  (chunkAux max_chunk_size [] [] 0 (pySplit text)).map joinWords

/-- One Textract block (`{BlockType, Text}`). -/
structure TBlock where
  blockType : String
  text : String

/-- One Textract `get_document_text_detection` response. -/
structure TResponse where
  jobStatus : String
  blocks : List TBlock
  nextToken : Option String
  statusMessage : Option String

/-- Line extraction used on every Textract response (amazon.py lines 17,
34-36, 41-43): keep the `Text` of blocks whose `BlockType` is `LINE`. -/
def extractLines (blocks : List TBlock) : List String :=
  (blocks.filter (fun b => b.blockType == "LINE")).map (fun b => b.text)

/-- Embeds `extract_text_from_response` (amazon.py lines 15-19). -/
def extract_text_from_response (response : TResponse) : List String :=
  extractLines response.blocks

/-- The status polling loop of `wait_for_job_completion` (amazon.py lines
23-29): `poll i` is the response of the `i`-th status call; the loop runs
until a terminal status, `none` when the fuel runs out first. -/
def pollLoop (poll : Nat → TResponse) : Nat → Nat → Option TResponse
  | 0, _ => none
  | fuel + 1, i =>
      let resp := poll i
      if resp.jobStatus = "SUCCEEDED" ∨ resp.jobStatus = "FAILED" then some resp
      else pollLoop poll fuel (i + 1)

/-- The pagination loop of `wait_for_job_completion` (amazon.py lines 33-44):
collect LINE text of the current response, then follow `NextToken` via
`fetch`; `none` when the fuel runs out before the tokens do. -/
def drainPages (fetch : String → TResponse) :
    Nat → TResponse → List String → Option (List String)
  | 0, resp, acc =>
      let acc2 := acc ++ extractLines resp.blocks
      match resp.nextToken with
      | none => some acc2
      | some _ => none
  | fuel + 1, resp, acc =>
      let acc2 := acc ++ extractLines resp.blocks
      match resp.nextToken with
      | none => some acc2
      | some t => drainPages fetch fuel (fetch t) acc2

/-- Embeds `wait_for_job_completion` (amazon.py lines 21-50).  `poll` models
the status calls, `fetch` the token-paginated result calls; the result is
`none` on fuel exhaustion, `.error` for the raised exception on FAILED, and
`.ok` with the collected LINE text on success. -/
def wait_for_job_completion (poll : Nat → TResponse) (fetch : String → TResponse)
    (pollFuel drainFuel : Nat) : Option (Except String (List String)) :=
  match pollLoop poll pollFuel 0 with
  | none => none
  | some response =>
      if response.jobStatus = "SUCCEEDED" then
        (drainPages fetch drainFuel response []).map Except.ok
      else
        some (.error ("Textract job failed: " ++
          response.statusMessage.getD "No error message provided"))

/-- The provider pagination protocol: starting from `r`, the pages `rest`
are reachable by following `NextToken` through `fetch`, and the last page
carries no token. -/
def PageChain (fetch : String → TResponse) : TResponse → List TResponse → Prop
  | r, [] => r.nextToken = none
  | r, r2 :: rest => ∃ t, r.nextToken = some t ∧ fetch t = r2 ∧ PageChain fetch r2 rest

/-- The per-chunk invocation loop shared by `process_with_bedrock_scraping`
and `process_with_bedrock_Analysis` (amazon.py lines 91-159 and 331-391):
`call i chunk` models the whole `try` body for chunk `i` (request
construction with the fixed prompt, `invoke_model`, and `json.loads` of the
body); on success the result is appended, on any error the chunk is skipped. -/
def invokeChunks (call : Nat → String → Except String JValue)
    (chunks : List String) : List JValue :=
  chunks.enum.foldl
    (fun all_results ic =>
      match call ic.1 ic.2 with
      | .ok result => all_results ++ [result]
      | .error _ => all_results)
    []

/-- Embeds `process_with_bedrock_scraping` (amazon.py lines 73-162): chunk
the text with the default budget and invoke the model per chunk. -/
def process_with_bedrock_scraping (call : Nat → String → Except String JValue)
    (text_content : String) : List JValue :=
  invokeChunks call (chunk_text text_content 6000)

/-- Embeds `process_with_bedrock_Analysis` (amazon.py lines 313-394): same
loop as the scraping variant, with the analysis prompt folded into `call`. -/
def process_with_bedrock_Analysis (call : Nat → String → Except String JValue)
    (text_content : String) : List JValue :=
  invokeChunks call (chunk_text text_content 6000)

/-- The function-level locals of `create_csv_from_results` that persist
across loop iterations: the rows written so far and the `patient_name` and
`test_date` bindings (`none` = not yet assigned). -/
structure CsvState where
  rows : List (List JValue)
  patient_name : Option JValue
  test_date : Option JValue

/-- The state at function entry: no rows, no bindings. -/
def initCsvState : CsvState := ⟨[], none, none⟩

/-- Embeds line 176 of amazon.py:
`result.get("content", ...)[0].get("text", "")` with the list-of-one-empty-dict
default, followed by the implicit
requirement (line 177 `.find`) that the value is a string. -/
def responseTextOf (result : JValue) : Except String String := do
  let content ← pyDictGet result "content" (.arr [.obj []])
  let first ← pyIndex0 content
  let t ← pyDictGet first "text" (.str "")
  match t with
  | .str s => .ok s
  | _ => .error "AttributeError"

/-- Embeds lines 177-180 of amazon.py: the substring from the first left
brace to the last right brace inclusive, `none` when the guard
`json_start >= 0 and json_end > json_start` fails. -/
def braceSlice (s : String) : Option String :=
  let json_start : Int := pyFind s lbrace
  let json_end : Int := pyRfind s rbrace + 1
  if 0 ≤ json_start ∧ json_start < json_end then some (pySlice s json_start json_end)
  else none

/-- The inner for-loop over `group.get("tests", [])` (amazon.py lines
193-205): write one row per test; a non-dict test raises (Bool `true`
result) and aborts the enclosing `try`, keeping the rows already written. -/
def processTests (group_name patient_name age test_date : JValue) :
    CsvState → List JValue → CsvState × Bool
  | st, [] => (st, false)
  | st, t :: ts =>
      match t with
      | .obj tf =>
          let row : List JValue :=
            [group_name, patient_name, age, test_date,
             objGetD tf "test_name" (.str ""), objGetD tf "result" (.str ""),
             objGetD tf "reference_range" (.str ""), objGetD tf "unit" (.str "")]
          processTests group_name patient_name age test_date
            { st with rows := st.rows ++ [row] } ts
      | _ => (st, true)

/-- The outer for-loop over `parsed_data.get("test_groups", [])`
(amazon.py lines 184-205): bind the group metadata, then emit the rows of
its tests; any raise aborts the rest of this result while keeping rows and
bindings already made. -/
def processGroups : CsvState → List JValue → CsvState
  | st, [] => st
  | st, g :: gs =>
      match g with
      | .obj gf =>
          let group_name := objGetD gf "group_name" (.str "")
          let patient_name := objGetD gf "name" (.str "")
          let test_date := objGetD gf "date" (.str "")
          let age := objGetD gf "age" (.str "")
          let st1 : CsvState :=
            { st with patient_name := some patient_name, test_date := some test_date }
          match pyIter (objGetD gf "tests" (.arr [])) with
          | none => st1
          | some ts =>
              match processTests group_name patient_name age test_date st1 ts with
              | (st2, true) => st2
              | (st2, false) => processGroups st2 gs
      | _ => st

/-- One iteration of the `for result in all_results` loop of
`create_csv_from_results` (amazon.py lines 173-211): the whole `try` body;
every modelled exception lands in the `except: continue`, returning the
state reached so far. -/
def processOneResult (jl : String → Option JValue) (st : CsvState)
    (result : JValue) : CsvState :=
  match responseTextOf result with
  | .error _ => st
  | .ok response_text =>
      match braceSlice response_text with
      | none => st
      | some sub =>
          match jl sub with
          | none => st
          | some parsed_data =>
              match pyDictGet parsed_data "test_groups" (.arr []) with
              | .error _ => st
              | .ok groupsVal =>
                  match pyIter groupsVal with
                  | none => st
                  | some groups => processGroups st groups

/-- The CSV header row written at amazon.py line 171. -/
def csvHeader : List String :=
  ["Test_Group", "Patient_Name", "age", "Date_of_test",
   "Test_Name", "Result", "Reference_Range", "Unit"]

/-- Embeds `create_csv_from_results` (amazon.py lines 165-214).  `jl` models
`json.loads` on the brace slice (`none` = parse error).  The final `return
output.getvalue(), patient_name, test_date` raises UnboundLocalError when no
iteration ever assigned `patient_name`. -/
def create_csv_from_results (jl : String → Option JValue) (all_results : List JValue) :
    Except String (List String × List (List JValue) × JValue × JValue) :=
  let st := all_results.foldl (processOneResult jl) initCsvState
  match st.patient_name, st.test_date with
  | some pn, some td => .ok (csvHeader, st.rows, pn, td)
  | _, _ => .error "UnboundLocalError"

/-- The rows one result contributes, independent of the incoming state. -/
def resultRows (jl : String → Option JValue) (result : JValue) : List (List JValue) :=
  (processOneResult jl initCsvState result).rows

/-- The denormalized metadata of a group, with missing fields defaulting to
the empty string. -/
def groupField (g : JValue) (key : String) : JValue :=
  match g with
  | .obj gf => objGetD gf key (.str "")
  | _ => .str ""

/-- The tests list of a group (empty when absent or not a list). -/
def testsOf (g : JValue) : List JValue :=
  match g with
  | .obj gf =>
      match objGetD gf "tests" (.arr []) with
      | .arr ts => ts
      | _ => []
  | _ => []

/-- The fields of a test object, empty string when missing. -/
def testField (t : JValue) (key : String) : JValue :=
  match t with
  | .obj tf => objGetD tf key (.str "")
  | _ => .str ""

/-- The row written for one test of one group (amazon.py lines 195-205):
group metadata denormalized, then the test fields. -/
def rowOfTest (g t : JValue) : List JValue :=
  [groupField g "group_name", groupField g "name", groupField g "age",
   groupField g "date",
   testField t "test_name", testField t "result",
   testField t "reference_range", testField t "unit"]

/-- The rows of one group: one per test, in test order. -/
def rowsOfGroup (g : JValue) : List (List JValue) :=
  (testsOf g).map (rowOfTest g)

/-- Well-formedness of one group for the schema of claim C2: an object whose
`tests` value is a list of objects. -/
def wfGroup : JValue → Bool
  | .obj gf =>
      match objGetD gf "tests" (.arr []) with
      | .arr ts => ts.all (fun t => match t with | .obj _ => true | _ => false)
      | _ => false
  | _ => false

/-- Embeds the response normalization of st.py (lines 85-102): dict inputs
read `results[0]`, non-empty list inputs read their first element, trying a
top-level `text` then `content[0].text` with the placeholder as the final
`or` fallback; anything else is rendered with `str()`. -/
def narrative_text (bedrock_results : JValue) : Except String JValue :=
  match bedrock_results with
  | .obj fs => do
      let r1 ← pyDictGet (.obj fs) "results" (.arr [.obj []])
      let e1 ← pyIndex0 r1
      let t1 ← pyDictGet e1 "text" .null
      if pyTruthy t1 then .ok t1
      else do
        let r2 ← pyDictGet (.obj fs) "results" (.arr [.obj []])
        let e2 ← pyIndex0 r2
        let c ← pyDictGet e2 "content" .null
        let c0 ← pyIndex0 c
        let t2 ← pyDictGet c0 "text" .null
        if pyTruthy t2 then .ok t2 else .ok (.str "No content found.")
  | .arr (x :: _) => do
      let t1 ← pyDictGet x "text" .null
      if pyTruthy t1 then .ok t1
      else do
        let c ← pyDictGet x "content" .null
        let c0 ← pyIndex0 c
        let t2 ← pyDictGet c0 "text" .null
        if pyTruthy t2 then .ok t2 else .ok (.str "No content found.")
  | v => .ok (.str (pyStr v))

/-- Size counter of a word list as `chunk_text` accumulates it: each word
contributes its length plus one. -/
def szSum : List String → Nat
  | [] => 0
  | w :: ws => w.length + 1 + szSum ws

/-- Concrete pages, clients and responses used by the witnesses below. -/
def pageA : TResponse := ⟨"SUCCEEDED", [⟨"LINE", "a"⟩, ⟨"WORD", "x"⟩], some "t1", none⟩
def pageB : TResponse := ⟨"SUCCEEDED", [⟨"LINE", "b"⟩], some "t2", none⟩
def pageC : TResponse := ⟨"SUCCEEDED", [⟨"LINE", "c"⟩, ⟨"PAGE", "p"⟩], none, none⟩
def fetchW : String → TResponse := fun t => if t = "t1" then pageB else pageC
def pollW : Nat → TResponse := fun _ => pageA
def failedResp : TResponse := ⟨"FAILED", [], none, some "X"⟩
def pollF : Nat → TResponse := fun _ => failedResp

def c7res : JValue := .obj [("content", .arr [.obj [("text", .str "hello")]])]

def c2test1 : JValue := .obj [("test_name", .str "Hemoglobin"), ("result", .str "13.5")]
def c2test2 : JValue := .obj [("test_name", .str "Glucose"), ("result", .str "95"), ("unit", .str "mg/dL")]
def c2group1 : JValue := .obj [("group_name", .str "CBC"), ("name", .str "Jane Doe"),
  ("date", .str "2024-01-01"), ("age", .str "34"), ("tests", .arr [c2test1, c2test2])]
def c2group2 : JValue := .obj [("group_name", .str "Lipids"), ("tests", .arr [c2test1, c2test2])]
def c2parsed : JValue := .obj [("test_groups", .arr [c2group1, c2group2])]
def c2text : String := "\x7bpayload\x7d"
def c2res : JValue := .obj [("content", .arr [.obj [("text", .str c2text)]])]
def c2jl : String → Option JValue := fun t => if t = c2text then some c2parsed else none

/-- Unfolding equation of `joinWords` on a list with two or more words. -/
theorem joinWords_cons_cons (x y : String) (t : List String) :
    joinWords (x :: y :: t) = x ++ " " ++ joinWords (y :: t) := rfl

/-- Python join distributes over list append for non-empty halves. -/
theorem joinWords_append (xs ys : List String) (hx : xs ≠ []) (hy : ys ≠ []) :
    joinWords (xs ++ ys) = joinWords xs ++ " " ++ joinWords ys := by
  induction xs with
  | nil => exact absurd rfl hx
  | cons x xs ih =>
      cases xs with
      | nil =>
          cases ys with
          | nil => exact absurd rfl hy
          | cons y t => simp [joinWords]
      | cons x2 t2 =>
          have h2 : (x2 :: t2) ≠ [] := by simp
          calc joinWords ((x :: x2 :: t2) ++ ys)
              = x ++ " " ++ joinWords ((x2 :: t2) ++ ys) := by
                simp only [List.cons_append, joinWords_cons_cons]
            _ = x ++ " " ++ (joinWords (x2 :: t2) ++ " " ++ joinWords ys) := by
                rw [ih h2]
            _ = joinWords (x :: x2 :: t2) ++ " " ++ joinWords ys := by
                rw [joinWords_cons_cons]
                simp [String.append_assoc]

/-- A flattened list starting with a non-empty chunk is non-empty. -/
theorem flatten_ne_nil_of_head_ne {c : List String} {t : List (List String)}
    (hc : c ≠ []) : (c :: t).flatten ≠ [] := by
  cases c with
  | nil => exact absurd rfl hc
  | cons x xs => simp [List.flatten]

/-- Joining joined chunks equals joining the underlying words, provided no
chunk is empty. -/
theorem joinWords_map_flatten (css : List (List String))
    (h : ∀ c ∈ css, c ≠ []) :
    joinWords (css.map joinWords) = joinWords css.flatten := by
  induction css with
  | nil => rfl
  | cons c t ih =>
      cases t with
      | nil => simp [joinWords, List.flatten]
      | cons c2 t2 =>
          have hc : c ≠ [] := h c (by simp)
          have hrest : ∀ x ∈ c2 :: t2, x ≠ [] := fun x hx => h x (by simp [hx])
          have hc2 : c2 ≠ [] := hrest c2 (by simp)
          have hfl : ((c2 :: t2).flatten) ≠ [] := flatten_ne_nil_of_head_ne hc2
          calc joinWords ((c :: c2 :: t2).map joinWords)
              = joinWords c ++ " " ++ joinWords ((c2 :: t2).map joinWords) := by
                simp only [List.map_cons, joinWords_cons_cons]
            _ = joinWords c ++ " " ++ joinWords ((c2 :: t2).flatten) := by
                rw [ih hrest]
            _ = joinWords (c ++ (c2 :: t2).flatten) := by
                rw [joinWords_append c _ hc hfl]
            _ = joinWords ((c :: c2 :: t2).flatten) := by
                simp [List.flatten]

/-- The chunk words produced by the loop are exactly the closed chunks, the
running chunk and the remaining words, in order. -/
theorem chunkAux_flatten (m : Nat) (ws : List String) :
    ∀ cs cur sz, (chunkAux m cs cur sz ws).flatten = cs.flatten ++ cur ++ ws := by
  induction ws with
  | nil =>
      intro cs cur sz
      by_cases h : cur = []
      · simp [chunkAux, h]
      · simp [chunkAux, h]
  | cons w ws ih =>
      intro cs cur sz
      by_cases h : sz + w.length + 1 > m ∧ cur ≠ []
      · simp only [chunkAux, if_pos h]
        rw [ih]
        simp
      · simp only [chunkAux, if_neg h]
        rw [ih]
        simp

/-- The loop never produces an empty chunk. -/
theorem chunkAux_ne (m : Nat) (ws : List String) :
    ∀ cs cur sz, (∀ c ∈ cs, c ≠ []) →
      ∀ c ∈ chunkAux m cs cur sz ws, c ≠ [] := by
  induction ws with
  | nil =>
      intro cs cur sz hcs c hc
      by_cases h : cur = []
      · simp [chunkAux, h] at hc
        exact hcs c hc
      · simp [chunkAux, h] at hc
        rcases hc with hc | hc
        · exact hcs c hc
        · simpa [hc] using h
  | cons w ws ih =>
      intro cs cur sz hcs c hc
      by_cases h : sz + w.length + 1 > m ∧ cur ≠ []
      · simp only [chunkAux, if_pos h] at hc
        refine ih _ _ _ ?_ c hc
        intro d hd
        rcases List.mem_append.mp hd with hd | hd
        · exact hcs d hd
        · simp at hd
          simpa [hd] using h.2
      · simp only [chunkAux, if_neg h] at hc
        exact ih _ _ _ hcs c hc

/-- Length of a joined chunk grows by the separator plus the new word. -/
theorem joinWords_length_snoc (xs : List String) (w : String) (hx : xs ≠ []) :
    (joinWords (xs ++ [w])).length = (joinWords xs).length + 1 + w.length := by
  rw [joinWords_append xs [w] hx (by simp)]
  have h1 : (" ").length = 1 := rfl
  simp [String.length_append, joinWords, h1]

/-- Loop invariant for the chunk bound: every emitted chunk either joins to
at most `m` characters or is a single word. -/
theorem chunkAux_bound (m : Nat) (ws : List String) :
    ∀ cs cur sz,
      (∀ c ∈ cs, (joinWords c).length ≤ m ∨ ∃ w, c = [w]) →
      (joinWords cur).length ≤ sz →
      (2 ≤ cur.length → (joinWords cur).length ≤ m) →
      ∀ c ∈ chunkAux m cs cur sz ws, (joinWords c).length ≤ m ∨ ∃ w, c = [w] := by
  induction ws with
  | nil =>
      intro cs cur sz hcs hsz hbig c hc
      by_cases h : cur = []
      · simp [chunkAux, h] at hc
        exact hcs c hc
      · simp [chunkAux, h] at hc
        rcases hc with hc | hc
        · exact hcs c hc
        · subst hc
          match c, h with
          | [x], _ => exact Or.inr ⟨x, rfl⟩
          | x :: y :: t, _ => exact Or.inl (hbig (by simp))
  | cons w ws ih =>
      intro cs cur sz hcs hsz hbig c hc
      by_cases h : sz + w.length + 1 > m ∧ cur ≠ []
      · simp only [chunkAux, if_pos h] at hc
        refine ih _ _ _ ?_ ?_ ?_ c hc
        · intro d hd
          rcases List.mem_append.mp hd with hd | hd
          · exact hcs d hd
          · simp at hd
            subst hd
            match d, h.2 with
            | [x], _ => exact Or.inr ⟨x, rfl⟩
            | x :: y :: t, _ => exact Or.inl (hbig (by simp))
        · simp [joinWords]
        · simp
      · simp only [chunkAux, if_neg h] at hc
        refine ih _ _ _ hcs ?_ ?_ c hc
        · by_cases hcur : cur = []
          · subst hcur
            simp [joinWords]
            omega
          · rw [joinWords_length_snoc cur w hcur]
            omega
        · intro hlen
          by_cases hcur : cur = []
          · subst hcur
            simp at hlen
          · have hle : ¬ sz + w.length + 1 > m := fun hgt => h ⟨hgt, hcur⟩
            rw [joinWords_length_snoc cur w hcur]
            omega

/-- C1: for every input text and positive `max_chunk_size`, joining the
chunks returned by `chunk_text` with single spaces equals the input words
joined by single spaces, so no word is dropped, duplicated, reordered or
split across chunks. -/
theorem chunk_text_roundtrip (text : String) (max_chunk_size : Nat)
    (_h : 0 < max_chunk_size) :
    joinWords (chunk_text text max_chunk_size) = joinWords (pySplit text) := by
  unfold chunk_text
  rw [joinWords_map_flatten _ (chunkAux_ne _ _ [] [] 0 (by simp))]
  rw [chunkAux_flatten]
  simp

/-- C4: every chunk produced by `chunk_text` has length at most
`max_chunk_size`, except that an oversized chunk is always a single input
word that alone exceeds the budget, still emitted as its own chunk. -/
theorem chunk_text_bound (text : String) (m : Nat) :
    ∀ c ∈ chunk_text text m, c.length ≤ m ∨ (c ∈ pySplit text ∧ m < c.length) := by
  intro c hc
  unfold chunk_text at hc
  rcases List.mem_map.mp hc with ⟨cw, hcw, rfl⟩
  have hgood := chunkAux_bound m (pySplit text) [] [] 0 (by simp)
    (by simp [joinWords]) (by simp) cw hcw
  rcases hgood with hle | ⟨w, rfl⟩
  · exact Or.inl hle
  · by_cases hlen : w.length ≤ m
    · exact Or.inl (by simpa [joinWords] using hlen)
    · refine Or.inr ⟨?_, by simpa [joinWords] using Nat.lt_of_not_le hlen⟩
      have hmem : w ∈ (chunkAux m [] [] 0 (pySplit text)).flatten :=
        List.mem_flatten.mpr ⟨[w], hcw, by simp⟩
      rw [chunkAux_flatten] at hmem
      simpa [joinWords] using hmem

/-- The size counter over a non-empty word list is the joined length plus
one. -/
theorem szSum_eq (ws : List String) (h : ws ≠ []) :
    szSum ws = (joinWords ws).length + 1 := by
  induction ws with
  | nil => exact absurd rfl h
  | cons w t ih =>
      cases t with
      | nil => simp [szSum, joinWords]
      | cons x t2 =>
          have h1 : (" ").length = 1 := rfl
          rw [joinWords_cons_cons]
          simp [szSum, String.length_append, h1, ih (by simp)] at *
          omega

/-- When the remaining words all fit the budget together with the running
chunk, the loop closes exactly one final chunk. -/
theorem chunkAux_single (m : Nat) (ws : List String) :
    ∀ cs cur sz, cur ≠ [] → sz + szSum ws ≤ m →
      chunkAux m cs cur sz ws = cs ++ [cur ++ ws] := by
  induction ws with
  | nil =>
      intro cs cur sz hcur _
      simp [chunkAux, hcur]
  | cons w ws ih =>
      intro cs cur sz hcur hle
      have hw : ¬ sz + w.length + 1 > m := by
        simp [szSum] at hle
        omega
      rw [chunkAux, if_neg (fun hand => hw hand.1)]
      rw [ih cs (cur ++ [w]) (sz + w.length + 1) (by simp) (by simp [szSum] at hle ⊢; omega)]
      simp

/-- C10 (amended): `chunk_text` returns zero chunks for every input
containing no words, and exactly one chunk for every input with at least one
word whose whitespace-normalized length is strictly less than
`max_chunk_size`. -/
theorem chunk_text_counts (text : String) (m : Nat) :
    (pySplit text = [] → chunk_text text m = []) ∧
    (pySplit text ≠ [] → (joinWords (pySplit text)).length < m →
      (chunk_text text m).length = 1) := by
  constructor
  · intro h
    simp [chunk_text, h, chunkAux]
  · intro h hlt
    obtain ⟨w, ws, hw⟩ := List.exists_cons_of_ne_nil h
    unfold chunk_text
    rw [hw] at hlt ⊢
    have hstep : chunkAux m [] [] 0 (w :: ws) =
        chunkAux m [] [w] (0 + w.length + 1) ws := by
      rw [chunkAux, if_neg (by simp)]
      simp
    rw [hstep]
    have hbound : 0 + w.length + 1 + szSum ws ≤ m := by
      have hsz : szSum (w :: ws) = (joinWords (w :: ws)).length + 1 :=
        szSum_eq _ (by simp)
      simp [szSum] at hsz
      omega
    rw [chunkAux_single m ws [] [w] (0 + w.length + 1) (by simp) hbound]
    simp

/-- C10 counterexample: the input "a b" with `max_chunk_size` 3 has words,
its whitespace-normalized length is at most 3, yet `chunk_text` returns two
chunks, not one. -/
theorem chunk_text_single_counterexample :
    (joinWords (pySplit "a b")).length ≤ 3 ∧ pySplit "a b" ≠ [] ∧
    chunk_text "a b" 3 = ["a", "b"] ∧ (chunk_text "a b" 3).length ≠ 1 := by
  decide

/-- Witness for C1 at a concrete text and budget. -/
theorem chunk_text_roundtrip_witness :
    0 < 5 ∧ joinWords (chunk_text "one two three" 5) = joinWords (pySplit "one two three") :=
  ⟨by decide, chunk_text_roundtrip "one two three" 5 (by decide)⟩

/-- Witness for C4 at a text containing an oversized word. -/
theorem chunk_text_bound_witness :
    "abcdef" ∈ chunk_text "abcdef gg" 4 ∧
    ("abcdef".length ≤ 4 ∨ ("abcdef" ∈ pySplit "abcdef gg" ∧ 4 < "abcdef".length)) :=
  ⟨by decide, chunk_text_bound "abcdef gg" 4 "abcdef" (by decide)⟩

/-- Witness for the amended C10 at a wordless input and at a fitting one. -/
theorem chunk_text_counts_witness :
    (pySplit "" = [] ∧ chunk_text "" 7 = []) ∧
    (pySplit "a b" ≠ [] ∧ (joinWords (pySplit "a b")).length < 4 ∧
      (chunk_text "a b" 4).length = 1) :=
  ⟨⟨by decide, (chunk_text_counts "" 7).1 (by decide)⟩,
   ⟨by decide, by decide, (chunk_text_counts "a b" 4).2 (by decide) (by decide)⟩⟩

/-- The pagination loop with enough fuel collects LINE text from every page
of a token chain, in order. -/
theorem drainPages_chain (fetch : String → TResponse) (rest : List TResponse) :
    ∀ (r : TResponse) (acc : List String) (fuel : Nat),
      PageChain fetch r rest → rest.length ≤ fuel →
      drainPages fetch fuel r acc =
        some (acc ++ (r :: rest).flatMap (fun p => extractLines p.blocks)) := by
  induction rest with
  | nil =>
      intro r acc fuel hchain _
      have htok : r.nextToken = none := hchain
      cases fuel with
      | zero => simp [drainPages, htok]
      | succ f => simp [drainPages, htok]
  | cons r2 rest ih =>
      intro r acc fuel hchain hfuel
      obtain ⟨t, htok, hfetch, hrest⟩ := hchain
      cases fuel with
      | zero => simp at hfuel
      | succ f =>
          have hf : rest.length ≤ f := by simpa using hfuel
          simp only [drainPages, htok]
          rw [hfetch]
          rw [ih r2 (acc ++ extractLines r.blocks) f hrest hf]
          simp

/-- C5: when polling ends in a SUCCEEDED response and the provider pages
form a NextToken chain ending in a page without a token, the orchestrator
returns the Text of every LINE block of every page exactly once, in page
order and within-page block order, discarding all non-LINE blocks. -/
theorem wait_for_job_success (poll : Nat → TResponse) (fetch : String → TResponse)
    (pollFuel drainFuel : Nat) (r : TResponse) (rest : List TResponse)
    (hpoll : pollLoop poll pollFuel 0 = some r)
    (hst : r.jobStatus = "SUCCEEDED")
    (hchain : PageChain fetch r rest)
    (hfuel : rest.length ≤ drainFuel) :
    wait_for_job_completion poll fetch pollFuel drainFuel =
      some (.ok ((r :: rest).flatMap (fun p => extractLines p.blocks))) := by
  unfold wait_for_job_completion
  rw [hpoll]
  simp [hst, drainPages_chain fetch rest r [] drainFuel hchain hfuel]

/-- C6: when polling ends in a FAILED response the orchestrator raises an
error whose message contains the provider status message when one is
present, and contains the fixed placeholder when none is; it does not
return normally. -/
theorem wait_for_job_failed (poll : Nat → TResponse) (fetch : String → TResponse)
    (pollFuel drainFuel : Nat) (r : TResponse)
    (hpoll : pollLoop poll pollFuel 0 = some r)
    (hst : r.jobStatus = "FAILED") :
    ∃ msg, wait_for_job_completion poll fetch pollFuel drainFuel = some (.error msg) ∧
      (∀ m, r.statusMessage = some m → ∃ p, msg = p ++ m) ∧
      (r.statusMessage = none → ∃ p, msg = p ++ "No error message provided") := by
  refine ⟨"Textract job failed: " ++ r.statusMessage.getD "No error message provided",
    ?_, ?_, ?_⟩
  · unfold wait_for_job_completion
    rw [hpoll]
    have hne : ¬ r.jobStatus = "SUCCEEDED" := by rw [hst]; decide
    simp [hne]
  · intro m hm
    exact ⟨"Textract job failed: ", by rw [hm]; rfl⟩
  · intro hm
    exact ⟨"Textract job failed: ", by rw [hm]; rfl⟩

/-- Witness for C5 on a concrete three-page job. -/
theorem wait_for_job_success_witness :
    pollLoop pollW 1 0 = some pageA ∧ pageA.jobStatus = "SUCCEEDED" ∧
    PageChain fetchW pageA [pageB, pageC] ∧ [pageB, pageC].length ≤ 2 ∧
    wait_for_job_completion pollW fetchW 1 2 = some (.ok ["a", "b", "c"]) := by
  have hchain : PageChain fetchW pageA [pageB, pageC] :=
    ⟨"t1", rfl, rfl, "t2", rfl, rfl, rfl⟩
  refine ⟨rfl, rfl, hchain, by decide, ?_⟩
  exact wait_for_job_success pollW fetchW 1 2 pageA [pageB, pageC] rfl rfl hchain
    (by decide)

/-- Witness for C6 on a job failing with status message X. -/
theorem wait_for_job_failed_witness :
    pollLoop pollF 1 0 = some failedResp ∧ failedResp.jobStatus = "FAILED" ∧
    ∃ msg, wait_for_job_completion pollF fetchW 1 0 = some (.error msg) ∧
      ∃ p, msg = p ++ "X" := by
  refine ⟨rfl, rfl, ?_⟩
  obtain ⟨msg, h1, h2, _⟩ := wait_for_job_failed pollF fetchW 1 0 failedResp rfl rfl
  exact ⟨msg, h1, h2 "X" rfl⟩

/-- The result-collecting fold keeps exactly the successful calls, in
order. -/
theorem invokeChunks_foldl_eq (call : Nat → String → Except String JValue)
    (l : List (Nat × String)) :
    ∀ acc, l.foldl
        (fun all_results ic =>
          match call ic.1 ic.2 with
          | .ok result => all_results ++ [result]
          | .error _ => all_results) acc =
      acc ++ l.filterMap (fun ic => (call ic.1 ic.2).toOption) := by
  induction l with
  | nil => intro acc; simp
  | cons ic t ih =>
      intro acc
      cases hcall : call ic.1 ic.2 with
      | ok result => simp [List.foldl_cons, hcall, ih, Except.toOption]
      | error e => simp [List.foldl_cons, hcall, ih, Except.toOption]

/-- C3: the per-chunk invocation loop returns exactly the successful chunk
results in chunk submission order: a failing chunk contributes nothing and
the loop continues, and when every chunk fails the result is the empty list
rather than an error. -/
theorem bedrock_per_chunk_isolation (call : Nat → String → Except String JValue) :
    (∀ chunks, invokeChunks call chunks =
      chunks.enum.filterMap (fun ic => (call ic.1 ic.2).toOption)) ∧
    (∀ text_content, process_with_bedrock_scraping call text_content =
      (chunk_text text_content 6000).enum.filterMap
        (fun ic => (call ic.1 ic.2).toOption)) ∧
    (∀ text_content, process_with_bedrock_Analysis call text_content =
      (chunk_text text_content 6000).enum.filterMap
        (fun ic => (call ic.1 ic.2).toOption)) := by
  have hmain : ∀ chunks, invokeChunks call chunks =
      chunks.enum.filterMap (fun ic => (call ic.1 ic.2).toOption) := by
    intro chunks
    unfold invokeChunks
    rw [invokeChunks_foldl_eq call chunks.enum []]
    simp
  exact ⟨hmain, fun t => hmain _, fun t => hmain _⟩

/-- C8 (code bug): on an empty result sequence `create_csv_from_results`
does not return a header-only table: the final return statement reads the
never-assigned `patient_name` local and raises UnboundLocalError. -/
theorem create_csv_unbound_on_empty (jl : String → Option JValue) :
    create_csv_from_results jl [] = .error "UnboundLocalError" := rfl

/-- C9 (code bug): the normalizer returns the `str` rendering "[]" rather
than the fixed placeholder for an empty result list, and raises TypeError
when the first element has neither a truthy text field nor a content
field. -/
theorem narrative_text_not_placeholder :
    narrative_text (.arr []) = .ok (.str "[]") ∧
    "[]" ≠ "No content found." ∧
    narrative_text (.arr [.obj []]) = .error "TypeError" :=
  ⟨rfl, by decide, rfl⟩

/-- A response without a parseable brace payload leaves the CSV state
unchanged. -/
theorem processOneResult_bad (jl : String → Option JValue) (result : JValue)
    (s : String) (hs : responseTextOf result = .ok s)
    (hbad : braceSlice s = none ∨ ∃ sub, braceSlice s = some sub ∧ jl sub = none) :
    ∀ st, processOneResult jl st result = st := by
  intro st
  unfold processOneResult
  rcases hbad with h | ⟨sub, h1, h2⟩
  · simp [hs, h]
  · simp [hs, h1, h2]

/-- C7: a response whose extracted text has no brace-delimited substring, or
whose brace-delimited substring fails to parse, contributes zero rows and
leaves the processing of the remaining responses unchanged. -/
theorem reconciler_skips_bad_response (jl : String → Option JValue)
    (result : JValue) (s : String)
    (hs : responseTextOf result = .ok s)
    (hbad : braceSlice s = none ∨ ∃ sub, braceSlice s = some sub ∧ jl sub = none) :
    ∀ pre post, (pre ++ result :: post).foldl (processOneResult jl) initCsvState =
      (pre ++ post).foldl (processOneResult jl) initCsvState := by
  intro pre post
  rw [List.foldl_append, List.foldl_append, List.foldl_cons,
    processOneResult_bad jl result s hs hbad]

/-- Witness for C7 on a response whose text has no braces. -/
theorem reconciler_skips_bad_response_witness :
    responseTextOf c7res = .ok "hello" ∧ braceSlice "hello" = none ∧
    [c7res].foldl (processOneResult (fun _ => none)) initCsvState = initCsvState := by
  refine ⟨rfl, rfl, ?_⟩
  have h := reconciler_skips_bad_response (fun _ => none) c7res "hello" rfl
    (Or.inl rfl) [] []
  simpa using h

/-- The tests loop on a list of test objects writes one row per test, in
order, and does not abort. -/
theorem processTests_wf (gn pn ag td : JValue) (ts : List JValue)
    (h : ts.all (fun t => match t with | .obj _ => true | _ => false) = true) :
    ∀ st, processTests gn pn ag td st ts =
      ({ st with rows := st.rows ++ ts.map (fun t =>
          [gn, pn, ag, td, testField t "test_name", testField t "result",
           testField t "reference_range", testField t "unit"]) }, false) := by
  induction ts with
  | nil => intro st; simp [processTests]
  | cons t ts ih =>
      intro st
      cases t with
      | obj tf =>
          have htail : ts.all (fun t => match t with | .obj _ => true | _ => false) = true := by
            simp only [List.all_cons, Bool.and_eq_true] at h
            exact h.2
          rw [processTests, ih htail]
          simp [testField]
      | null => simp at h
      | bool b => simp at h
      | num n => simp at h
      | str s => simp at h
      | arr xs => simp at h

/-- The groups loop on well-formed groups appends exactly the flattened
rows of every group, in group order. -/
theorem processGroups_wf (gs : List JValue) (h : ∀ g ∈ gs, wfGroup g = true) :
    ∀ st, (processGroups st gs).rows = st.rows ++ gs.flatMap rowsOfGroup := by
  induction gs with
  | nil => intro st; simp [processGroups]
  | cons g gs ih =>
      intro st
      have hg : wfGroup g = true := h g (by simp)
      have htail : ∀ g ∈ gs, wfGroup g = true := fun x hx => h x (by simp [hx])
      cases g with
      | obj gf =>
          cases hts : objGetD gf "tests" (.arr []) with
          | arr ts =>
              have hall : ts.all (fun t => match t with | .obj _ => true | _ => false)
                  = true := by
                rw [wfGroup, hts] at hg
                exact hg
              rw [processGroups]
              simp only [hts, pyIter]
              rw [processTests_wf _ _ _ _ ts hall, ih htail]
              simp [rowsOfGroup, testsOf, rowOfTest, groupField, hts, testField]
          | null => rw [wfGroup, hts] at hg; exact absurd hg (by simp)
          | bool b => rw [wfGroup, hts] at hg; exact absurd hg (by simp)
          | num n => rw [wfGroup, hts] at hg; exact absurd hg (by simp)
          | str s => rw [wfGroup, hts] at hg; exact absurd hg (by simp)
          | obj fs2 => rw [wfGroup, hts] at hg; exact absurd hg (by simp)
      | null => simp [wfGroup] at hg
      | bool b => simp [wfGroup] at hg
      | num n => simp [wfGroup] at hg
      | str s => simp [wfGroup] at hg
      | arr xs => simp [wfGroup] at hg

/-- C2: for a response whose text yields a parseable `test_groups` payload
of well-formed groups, the reconciler appends exactly one row per test of
each group, in group-then-test order, each row carrying the metadata of its
own group denormalized, with missing fields defaulting to the empty
string. -/
theorem reconciler_flattening (jl : String → Option JValue) (st : CsvState)
    (result : JValue) (s sub : String) (parsed : JValue) (groups : List JValue)
    (hs : responseTextOf result = .ok s)
    (hb : braceSlice s = some sub)
    (hp : jl sub = some parsed)
    (hg : pyDictGet parsed "test_groups" (.arr []) = .ok (.arr groups))
    (hw : ∀ g ∈ groups, wfGroup g = true) :
    (processOneResult jl st result).rows = st.rows ++ groups.flatMap rowsOfGroup := by
  unfold processOneResult
  simp only [hs, hb, hp, hg, pyIter]
  exact processGroups_wf groups hw st

/-- Witness for C2 on one response carrying two groups of two tests: four
rows. -/
theorem reconciler_flattening_witness :
    (responseTextOf c2res = .ok c2text ∧
     braceSlice c2text = some c2text ∧
     c2jl c2text = some c2parsed ∧
     pyDictGet c2parsed "test_groups" (.arr []) = .ok (.arr [c2group1, c2group2]) ∧
     ∀ g ∈ [c2group1, c2group2], wfGroup g = true) ∧
    (processOneResult c2jl initCsvState c2res).rows =
      [c2group1, c2group2].flatMap rowsOfGroup ∧
    ((processOneResult c2jl initCsvState c2res).rows).length = 4 := by
  refine ⟨⟨rfl, rfl, rfl, rfl, by decide⟩, ?_, ?_⟩
  · have h := reconciler_flattening c2jl initCsvState c2res c2text c2text c2parsed
      [c2group1, c2group2] rfl rfl rfl rfl (by decide)
    simpa using h
  · rfl
